import Mathlib

/-!
Verification of the conversational-memory core of `cg-glite`.

The development shallowly embeds the Rust sources:
* `src/graph/operations.rs` — `GraphDB::escape_string`, the query
  builders, and the entity-resolution/linking operations;
* `src/agent/memory.rs` — `AgenticMemory` orchestration and
  `build_context`.

Strings are modelled as `List Char` (the Rust code iterates `s.chars()`).
The graph-storage backend (`graphlite_sdk`) is an external collaborator;
where its behaviour matters it is modelled from the spec's backend
contract (§6) as a typed state transformer, with backend failures drawn
from an explicit oracle.
-/

/-- The backslash character `\`. -/
def bsC : Char := Char.ofNat 92

/-- The single-quote character. -/
def sqC : Char := Char.ofNat 39

/-- Per-character escaping, mirroring the `match ch` arms of
`GraphDB::escape_string` (operations.rs lines 343-356): each special
character becomes a two-character backslash sequence, every other
character is passed through. -/
def escapeChar (c : Char) : List Char :=
  if c = sqC then [bsC, sqC]
  else if c = bsC then [bsC, bsC]
  else if c = '\n' then [bsC, 'n']
  else if c = '\r' then [bsC, 'r']
  else if c = '\t' then [bsC, 't']
  else if c = Char.ofNat 8 then [bsC, 'b']
  else if c = Char.ofNat 12 then [bsC, 'f']
  else if c = Char.ofNat 0 then [bsC, '0']
  else if c = '"' then [bsC, '"']
  else [c]

/-- `GraphDB::escape_string` (operations.rs lines 340-359): the loop
pushes the escape sequence of each character in order. -/
def escape_string : List Char → List Char
  | [] => []
  | c :: cs => escapeChar c ++ escape_string cs

/-- Scanner deciding whether a character sequence, placed inside a
single-quoted literal of the query language, contains a quote that is
not consumed by a preceding backslash escape (and hence would terminate
the literal early). A backslash consumes the following character. -/
def hasUnescapedQuote : List Char → Bool
  | [] => false
  | [c] => decide (c = sqC)
  | c :: d :: rest =>
    if c = bsC then hasUnescapedQuote rest
    else if c = sqC then true
    else hasUnescapedQuote (d :: rest)

theorem escape_string_append (s t : List Char) :
    escape_string (s ++ t) = escape_string s ++ escape_string t := by
  induction s with
  | nil => rfl
  | cons c cs ih => simp [escape_string, ih]

theorem hasUnescapedQuote_escapeChar_append (c : Char) (l : List Char) :
    hasUnescapedQuote (escapeChar c ++ l) = hasUnescapedQuote l := by
  unfold escapeChar
  split_ifs <;> cases l <;> simp [hasUnescapedQuote, *]

/-- C1: for every input string `s`, the output of `escape_string`
contains no unescaped single quote (so it cannot terminate the
surrounding single-quoted literal early), and an input ending in a
literal backslash followed by a quote is encoded as the two separate
escape sequences `\\` and `\'` appended after the escaped prefix, so the
backslash cannot neutralize the quote's escape. -/
theorem escape_string_safety (s : List Char) :
    hasUnescapedQuote (escape_string s) = false ∧
    escape_string (s ++ [bsC, sqC]) =
      escape_string s ++ [bsC, bsC, bsC, sqC] := by
  constructor
  · induction s with
    | nil => rfl
    | cons c cs ih =>
      rw [escape_string, hasUnescapedQuote_escapeChar_append]
      exact ih
  · rw [escape_string_append]
    rfl

/-- C2: `escape_string` maps each character independently: it is empty
on the empty string, a homomorphism for concatenation, sends each of the
nine special characters to its two-character backslash sequence, and
passes every other character (non-ASCII included) through unchanged. -/
theorem escape_string_charwise :
    escape_string [] = [] ∧
    (∀ s t, escape_string (s ++ t) = escape_string s ++ escape_string t) ∧
    escape_string [bsC] = [bsC, bsC] ∧
    escape_string [sqC] = [bsC, sqC] ∧
    escape_string ['"'] = [bsC, '"'] ∧
    escape_string ['\n'] = [bsC, 'n'] ∧
    escape_string ['\r'] = [bsC, 'r'] ∧
    escape_string ['\t'] = [bsC, 't'] ∧
    escape_string [Char.ofNat 8] = [bsC, 'b'] ∧
    escape_string [Char.ofNat 12] = [bsC, 'f'] ∧
    escape_string [Char.ofNat 0] = [bsC, '0'] ∧
    (∀ c : Char,
      c ∉ [bsC, sqC, '"', '\n', '\r', '\t',
           Char.ofNat 8, Char.ofNat 12, Char.ofNat 0] →
      escape_string [c] = [c]) := by
  refine ⟨rfl, escape_string_append, rfl, rfl, rfl, rfl, rfl, rfl, rfl,
    rfl, rfl, ?_⟩
  intro c hc
  simp only [List.mem_cons, List.not_mem_nil, or_false, not_or] at hc
  obtain ⟨h2, h1, h9, h3, h4, h5, h6, h7, h8⟩ := hc
  simp [escape_string, escapeChar, h1, h2, h3, h4, h5, h6, h7, h8, h9]

/-- Witness for the hypothesis-bearing conjunct of
`escape_string_charwise`: the ordinary character `a` passes through
unchanged. -/
theorem escape_string_charwise_witness : escape_string ['a'] = ['a'] :=
  escape_string_charwise.2.2.2.2.2.2.2.2.2.2.2 'a' (by decide)

/-- The statement built by `GraphDB::start_conversation`
(operations.rs lines 84-89). The generated id and timestamp are
parameters. Note that the title is interpolated raw: the source does
not pass it through `escape_string`. -/
def start_conversation_query (conv_id timestamp : List Char)
    (title : Option (List Char)) : List Char :=
  "INSERT (:Conversation \x7bid: \x27".data ++ conv_id
    ++ "\x27, started_at: \x27".data ++ timestamp
    ++ "\x27, title: \x27".data ++ title.getD "New Conversation".data
    ++ "\x27\x7d)".data

/-- The Message INSERT statement built by `GraphDB::add_message`
(operations.rs lines 110-116): the content goes through
`escape_string`, the role is interpolated raw. -/
def message_insert_query (msg_id role content timestamp : List Char) :
    List Char :=
  "INSERT (:Message \x7bid: \x27".data ++ msg_id
    ++ "\x27, role: \x27".data ++ role
    ++ "\x27, content: \x27".data ++ escape_string content
    ++ "\x27, timestamp: \x27".data ++ timestamp
    ++ "\x27\x7d)".data

/-- C3 (failing input): `start_conversation` interpolates the
user-controlled title without escaping, and `add_message` does the same
with the role. For the title `a'b` the built statement embeds the raw
`a'b` — whose quote terminates the title literal early — even though its
escaped form differs; the role is likewise embedded raw. -/
theorem user_text_not_always_escaped :
    start_conversation_query "c1".data "t0".data (some "a\x27b".data) =
      ("INSERT (:Conversation \x7bid: \x27c1\x27, started_at: " ++
        "\x27t0\x27, title: \x27a\x27b\x27\x7d)").data ∧
    escape_string "a\x27b".data ≠ "a\x27b".data ∧
    hasUnescapedQuote "a\x27b".data = true ∧
    message_insert_query "m1".data "r\x27s".data "c".data "t0".data =
      ("INSERT (:Message \x7bid: \x27m1\x27, role: \x27r\x27s\x27, " ++
        "content: \x27c\x27, timestamp: \x27t0\x27\x7d)").data := by
  exact ⟨by decide, by decide, by decide, by decide⟩

/-!
## Shape-level model of the graph operations

Each `session.execute` call site issues a statement of a fixed shape
with interpolated values; the model below represents those statements as
typed state transformers over a graph state, with the backend execution
semantics modelled from the spec's backend contract (§6). Since the spec
guarantees that the backend's unescape inverts `escape_string` exactly
(§4.2), the value stored for an escaped literal is the raw input, so the
shape level passes raw values; the string level above covers the cases
where the escaping itself is at issue.

Backend calls can fail (timeout, connection loss); failures are drawn
from an oracle `o : Nat → Bool` indexed by the number of `execute`
calls issued so far — `o k = false` means the `k`-th call fails, in
which case the statement has no effect on the state.
-/

/-- The per-entity-type configuration enum `EntityConfig`
(operations.rs lines 7-56). The task case carries the `created_at`
timestamp that `additional_properties` interpolates (`now()` in the
source, a parameter here). -/
inductive EntityConfig where
  | person (name : List Char)
  | topic (name : List Char)
  | task (description : List Char) (createdAt : List Char)
deriving DecidableEq

/-- `EntityConfig::label` (operations.rs lines 15-21). -/
def EntityConfig.label : EntityConfig → List Char
  | .person _ => "Person".data
  | .topic _ => "Topic".data
  | .task _ _ => "Task".data

/-- `EntityConfig::id_property` (operations.rs lines 24-29). -/
def EntityConfig.id_property : EntityConfig → List Char
  | .person _ => "name".data
  | .topic _ => "name".data
  | .task _ _ => "description".data

/-- `EntityConfig::id_value` (operations.rs lines 32-39): the escaped
natural-key value as interpolated into statements. -/
def EntityConfig.id_value : EntityConfig → List Char
  | .person name => escape_string name
  | .topic name => escape_string name
  | .task description _ => escape_string description

/-- The raw natural-key value; what the backend stores after decoding
the escaped literal (spec §4.2 round-trip guarantee). -/
def EntityConfig.key_raw : EntityConfig → List Char
  | .person name => name
  | .topic name => name
  | .task description _ => description

/-- `EntityConfig::should_deduplicate` (operations.rs lines 42-44). -/
def EntityConfig.should_deduplicate : EntityConfig → Bool
  | .person _ => true
  | .topic _ => true
  | .task _ _ => false

/-- `EntityConfig::additional_properties` (operations.rs lines 47-55),
as decoded property pairs: tasks get `status: pending` and
`created_at`, Person/Topic get none. -/
def EntityConfig.additional_properties :
    EntityConfig → List (List Char × List Char)
  | .task _ createdAt =>
      [("status".data, "pending".data), ("created_at".data, createdAt)]
  | _ => []

/-- `ExtractedEntities` (schema.rs lines 62-68). -/
structure ExtractedEntities where
  people : List (List Char)
  topics : List (List Char)
  tasks : List (List Char)
  documents : List (List Char)
deriving DecidableEq

/-- An entity node as created by the linking statements: an internal
identity `nid` distinguishing physically distinct nodes, the label, the
natural-key property and its stored (decoded) value, and the extra
creation-time properties. -/
structure GNode where
  nid : Nat
  label : List Char
  keyProp : List Char
  keyValue : List Char
  extras : List (List Char × List Char)
deriving DecidableEq

/-- A Message node (schema.rs lines 20-25). -/
structure MsgNode where
  mid : List Char
  role : List Char
  content : List Char
  timestamp : List Char
deriving DecidableEq

/-- A Conversation node (schema.rs lines 11-15). -/
structure ConvNode where
  cid : List Char
  startedAt : List Char
  title : List Char
deriving DecidableEq

/-- Modelled from the spec: the graph-store state visible to this core
(§3, §6) — Conversation, Message and entity nodes, `PART_OF` edges as
(message id, conversation id) pairs and `MENTIONED_IN` edges as
(entity nid, message id) pairs, plus the supply of fresh node
identities. -/
structure GraphState where
  convs : List ConvNode
  msgs : List MsgNode
  ents : List GNode
  partOf : List (List Char × List Char)
  mentionedIn : List (Nat × List Char)
  nextId : Nat
deriving DecidableEq

/-- Modelled from the spec: entity nodes matching a label and a
natural-key property-equality filter (§6 pattern matching). -/
def GraphState.matching (st : GraphState)
    (label keyProp keyValue : List Char) : List GNode :=
  st.ents.filter fun n =>
    decide (n.label = label ∧ n.keyProp = keyProp ∧ n.keyValue = keyValue)

/-- Modelled from the spec: unconditional node INSERT (§6), used by
`link_entity` for non-deduplicated types. -/
def GraphState.insertEnt (st : GraphState)
    (label keyProp keyValue : List Char)
    (extras : List (List Char × List Char)) : GraphState :=
  { st with
    ents := st.ents ++ [⟨st.nextId, label, keyProp, keyValue, extras⟩],
    nextId := st.nextId + 1 }

/-- Modelled from the spec: the conditional insert issued by
`link_entity` for deduplicated types (operations.rs lines 147-155,
`OPTIONAL MATCH ... WITH e WHERE e IS NULL INSERT ...`): the node is
inserted only when no node with the same label and natural key exists
(§4.3, §6). -/
def GraphState.condInsertEnt (st : GraphState)
    (label keyProp keyValue : List Char)
    (extras : List (List Char × List Char)) : GraphState :=
  if (st.matching label keyProp keyValue).isEmpty then
    st.insertEnt label keyProp keyValue extras
  else st

/-- Modelled from the spec: the `MENTIONED_IN` link statement
(operations.rs lines 168-172): MATCH the entity and the message, INSERT
one relationship per matching entity node. -/
def GraphState.insertMention (st : GraphState)
    (label keyProp keyValue msgId : List Char) : GraphState :=
  if st.msgs.any (fun m => decide (m.mid = msgId)) then
    { st with
      mentionedIn := st.mentionedIn ++
        (st.matching label keyProp keyValue).map fun n => (n.nid, msgId) }
  else st

/-- Modelled from the spec: the `PART_OF` link statement
(operations.rs lines 120-124). -/
def GraphState.insertPartOf (st : GraphState)
    (convId msgId : List Char) : GraphState :=
  if (st.msgs.any fun m => decide (m.mid = msgId)) &&
      (st.convs.any fun c => decide (c.cid = convId)) then
    { st with partOf := st.partOf ++ [(msgId, convId)] }
  else st

/-- Modelled from the spec: the Message INSERT statement
(operations.rs lines 110-116); the stored content is the decoded
literal, i.e. the raw content. -/
def GraphState.insertMsg (st : GraphState) (m : MsgNode) : GraphState :=
  { st with msgs := st.msgs ++ [m] }

/-- Modelled from the spec: the Conversation INSERT statement
(operations.rs lines 84-89). -/
def GraphState.insertConv (st : GraphState) (c : ConvNode) : GraphState :=
  { st with convs := st.convs ++ [c] }

/-- A backend session together with the index of the next `execute`
call, used to look up that call's outcome in the failure oracle. -/
structure ExecState where
  st : GraphState
  k : Nat
deriving DecidableEq

/-- One backend `execute` call: consumes the next oracle slot; on
success the statement's state transformation is applied, on backend
failure the state is unchanged and the error is reported. -/
def execStmt (o : Nat → Bool) (es : ExecState)
    (f : GraphState → GraphState) : ExecState × Bool :=
  if o es.k then ({ st := f es.st, k := es.k + 1 }, true)
  else ({ st := es.st, k := es.k + 1 }, false)

/-- `GraphDB::link_entity` (operations.rs lines 134-176): for
deduplicated types the conditional insert's result is discarded
(`let _ = session.execute(...)`, line 156) and the mention link is
always attempted; for tasks a failed unconditional insert returns early
with the error. The mention link's result is returned in both paths. -/
def link_entity (o : Nat → Bool) (es : ExecState) (message_id : List Char)
    (config : EntityConfig) : ExecState × Bool :=
  if config.should_deduplicate then
    execStmt o
      (execStmt o es fun st =>
        st.condInsertEnt config.label config.id_property config.key_raw
          config.additional_properties).1
      fun st =>
        st.insertMention config.label config.id_property config.key_raw
          message_id
  else
    if (execStmt o es fun st =>
        st.insertEnt config.label config.id_property config.key_raw
          config.additional_properties).2 then
      execStmt o
        (execStmt o es fun st =>
          st.insertEnt config.label config.id_property config.key_raw
            config.additional_properties).1
        fun st =>
          st.insertMention config.label config.id_property config.key_raw
            message_id
    else
      ((execStmt o es fun st =>
        st.insertEnt config.label config.id_property config.key_raw
          config.additional_properties).1, false)

/-- A `for ... { self.link_entity(...)? }` loop over a list of entity
configurations: abort on the first propagated error, keeping the
effects already performed. -/
def linkList (o : Nat → Bool) (m : List Char) :
    List EntityConfig → ExecState → ExecState × Bool
  | [], es => (es, true)
  | c :: cs, es =>
    if (link_entity o es m c).2 then linkList o m cs (link_entity o es m c).1
    else ((link_entity o es m c).1, false)

/-- `GraphDB::link_entities` (operations.rs lines 179-213): the three
loops over people, topics and tasks, in that order, each aborting the
rest on a propagated error. `taskTs` is the `created_at` timestamp used
for task nodes. -/
def link_entities (o : Nat → Bool) (es : ExecState) (message_id : List Char)
    (entities : ExtractedEntities) (taskTs : List Char) : ExecState × Bool :=
  if (linkList o message_id (entities.people.map EntityConfig.person) es).2 then
    if (linkList o message_id (entities.topics.map EntityConfig.topic)
        (linkList o message_id
          (entities.people.map EntityConfig.person) es).1).2 then
      linkList o message_id
        (entities.tasks.map fun d => EntityConfig.task d taskTs)
        (linkList o message_id (entities.topics.map EntityConfig.topic)
          (linkList o message_id
            (entities.people.map EntityConfig.person) es).1).1
    else
      ((linkList o message_id (entities.topics.map EntityConfig.topic)
        (linkList o message_id
          (entities.people.map EntityConfig.person) es).1).1, false)
  else
    ((linkList o message_id
      (entities.people.map EntityConfig.person) es).1, false)

/-- `GraphDB::add_message` (operations.rs lines 98-131): insert the
Message node, link it to the conversation via `PART_OF`, then link the
extracted entities; each step propagates its error and aborts the
following steps. The generated id and timestamps are parameters. -/
def add_message (o : Nat → Bool) (es : ExecState)
    (conversation_id role content msg_id timestamp taskTs : List Char)
    (entities : ExtractedEntities) : ExecState × Bool :=
  if (execStmt o es fun st =>
      st.insertMsg ⟨msg_id, role, content, timestamp⟩).2 then
    if (execStmt o
        (execStmt o es fun st =>
          st.insertMsg ⟨msg_id, role, content, timestamp⟩).1
        fun st => st.insertPartOf conversation_id msg_id).2 then
      link_entities o
        (execStmt o
          (execStmt o es fun st =>
            st.insertMsg ⟨msg_id, role, content, timestamp⟩).1
          fun st => st.insertPartOf conversation_id msg_id).1
        msg_id entities taskTs
    else
      ((execStmt o
        (execStmt o es fun st =>
          st.insertMsg ⟨msg_id, role, content, timestamp⟩).1
        fun st => st.insertPartOf conversation_id msg_id).1, false)
  else
    ((execStmt o es fun st =>
      st.insertMsg ⟨msg_id, role, content, timestamp⟩).1, false)

/-- `GraphDB::start_conversation` (operations.rs lines 80-95): insert
the Conversation node and return the generated id, or propagate the
backend error. -/
def start_conversation (o : Nat → Bool) (es : ExecState)
    (conv_id timestamp : List Char) (title : Option (List Char)) :
    ExecState × Option (List Char) :=
  if (execStmt o es fun st =>
      st.insertConv ⟨conv_id, timestamp,
        title.getD "New Conversation".data⟩).2 then
    ((execStmt o es fun st =>
      st.insertConv ⟨conv_id, timestamp,
        title.getD "New Conversation".data⟩).1, some conv_id)
  else
    ((execStmt o es fun st =>
      st.insertConv ⟨conv_id, timestamp,
        title.getD "New Conversation".data⟩).1, none)

/-- An ingestion operation issued against `GraphDB`. -/
inductive IngestOp where
  | startConv (convId ts : List Char) (title : Option (List Char))
  | addMsg (convId role content msgId ts taskTs : List Char)
      (ents : ExtractedEntities)
deriving DecidableEq

/-- Run a sequence of ingestion operations. -/
def runOps (o : Nat → Bool) (es : ExecState) : List IngestOp → ExecState
  | [] => es
  | .startConv cid ts title :: ops =>
      runOps o (start_conversation o es cid ts title).1 ops
  | .addMsg cid role content mid ts tts ents :: ops =>
      runOps o (add_message o es cid role content mid ts tts ents).1 ops

/-- The empty session: empty graph, first oracle slot. -/
def initES : ExecState := ⟨⟨[], [], [], [], [], 0⟩, 0⟩

/-- C5: for every backend-failure oracle, state and entity,
`link_entity` fails exactly when the mention-link statement fails if the
entity type deduplicates (a failed conditional insert is swallowed),
and exactly when the unconditional insert or the mention-link statement
fails if it does not. -/
theorem link_entity_error_policy (o : Nat → Bool) (es : ExecState)
    (m : List Char) (cfg : EntityConfig) :
    (cfg.should_deduplicate = true →
      ((link_entity o es m cfg).2 = false ↔ o (es.k + 1) = false)) ∧
    (cfg.should_deduplicate = false →
      ((link_entity o es m cfg).2 = false ↔
        (o es.k = false ∨ o (es.k + 1) = false))) := by
  cases cfg <;> cases h1 : o es.k <;> cases h2 : o (es.k + 1) <;>
    simp [link_entity, EntityConfig.should_deduplicate, execStmt, h1, h2]

/-- Witness for `link_entity_error_policy`: a Person link under an
all-success oracle, and a Task link likewise, at the initial state. -/
theorem link_entity_error_policy_witness :
    ((link_entity (fun _ => true) initES "m".data
        (EntityConfig.person "a".data)).2 = false ↔
      (fun _ => true : Nat → Bool) (initES.k + 1) = false) ∧
    ((link_entity (fun _ => true) initES "m".data
        (EntityConfig.task "d".data "t".data)).2 = false ↔
      ((fun _ => true : Nat → Bool) initES.k = false ∨
        (fun _ => true : Nat → Bool) (initES.k + 1) = false)) :=
  ⟨(link_entity_error_policy _ _ _ _).1 (by decide),
   (link_entity_error_policy _ _ _ _).2 (by decide)⟩

theorem linkList_append (o : Nat → Bool) (m : List Char) :
    ∀ (xs ys : List EntityConfig) (es : ExecState),
      linkList o m (xs ++ ys) es =
        (if (linkList o m xs es).2 then
          linkList o m ys (linkList o m xs es).1
         else linkList o m xs es) := by
  intro xs
  induction xs with
  | nil => intro ys es; simp [linkList]
  | cons c cs ih =>
    intro ys es
    simp only [List.cons_append, linkList]
    by_cases h : (link_entity o es m c).2 <;> simp [h, ih]

/-- C6: `add_message` inserts the Message node, then the `PART_OF`
link, then links the extracted entities as the single abort-on-error
sequence people, then topics, then tasks, each in extraction order; a
failure of the message insert propagates with the graph unchanged, a
failure of the conversation link propagates with the already-created
message node persisting, and an entity-link error aborts the remaining
entity links while earlier effects persist. -/
theorem add_message_order_and_abort (o : Nat → Bool) (es : ExecState)
    (cid role content mid ts tts : List Char) (ents : ExtractedEntities) :
    (link_entities o es mid ents tts =
      linkList o mid
        (ents.people.map EntityConfig.person ++
          (ents.topics.map EntityConfig.topic ++
            ents.tasks.map fun d => EntityConfig.task d tts)) es) ∧
    (o es.k = false →
      add_message o es cid role content mid ts tts ents =
        (⟨es.st, es.k + 1⟩, false)) ∧
    (o es.k = true → o (es.k + 1) = false →
      add_message o es cid role content mid ts tts ents =
        (⟨es.st.insertMsg ⟨mid, role, content, ts⟩, es.k + 2⟩, false)) ∧
    (o es.k = true → o (es.k + 1) = true →
      add_message o es cid role content mid ts tts ents =
        link_entities o
          ⟨(es.st.insertMsg ⟨mid, role, content, ts⟩).insertPartOf cid mid,
            es.k + 2⟩ mid ents tts) ∧
    (∀ (xs ys : List EntityConfig) (es1 : ExecState),
      (linkList o mid xs es1).2 = false →
      linkList o mid (xs ++ ys) es1 = linkList o mid xs es1) := by
  refine ⟨?_, ?_, ?_, ?_, ?_⟩
  · rw [linkList_append, linkList_append]
    unfold link_entities
    by_cases h1 :
        (linkList o mid (ents.people.map EntityConfig.person) es).2 <;>
      simp only [h1, if_true, if_false, Bool.false_eq_true, ite_false,
        ite_true]
    · by_cases h2 :
          (linkList o mid (ents.topics.map EntityConfig.topic)
            (linkList o mid (ents.people.map EntityConfig.person) es).1).2 <;>
        simp only [h2, if_true, if_false, Bool.false_eq_true, ite_false,
          ite_true]
      rw [Bool.not_eq_true] at h2
      rw [← h2]
    · rw [Bool.not_eq_true] at h1
      rw [← h1]
  · intro h1
    simp [add_message, execStmt, h1]
  · intro h1 h2
    simp [add_message, execStmt, h1, h2]
  · intro h1 h2
    simp [add_message, execStmt, h1, h2]
  · intro xs ys es1 h
    rw [linkList_append, h]
    simp

/-- Witness for `add_message_order_and_abort`: under the all-failure
oracle the message insert fails and the graph is unchanged. -/
theorem add_message_order_and_abort_witness :
    add_message (fun _ => false) initES "c1".data "user".data "hi".data
        "m1".data "t1".data "tt".data ⟨[], [], [], []⟩ =
      (⟨initES.st, initES.k + 1⟩, false) :=
  (add_message_order_and_abort (fun _ => false) initES "c1".data
    "user".data "hi".data "m1".data "t1".data "tt".data
    ⟨[], [], [], []⟩).2.1 rfl

/-- The deduplication invariant: node identities are below the
fresh-identity supply, Person and Topic nodes are keyed by their `name`
property, and no two distinct Person or Topic nodes share a label and a
natural-key value. -/
def DedupInv (st : GraphState) : Prop :=
  (∀ n ∈ st.ents, n.nid < st.nextId) ∧
  (∀ n ∈ st.ents,
    n.label = "Person".data ∨ n.label = "Topic".data →
    n.keyProp = "name".data) ∧
  ∀ n1 ∈ st.ents, ∀ n2 ∈ st.ents,
    (n1.label = "Person".data ∨ n1.label = "Topic".data) →
    n2.label = n1.label → n2.keyValue = n1.keyValue → n1 = n2

theorem DedupInv_of_eq {st st' : GraphState} (he : st'.ents = st.ents)
    (hn : st'.nextId = st.nextId) (h : DedupInv st) : DedupInv st' := by
  rw [DedupInv, he, hn]; exact h

theorem DedupInv.insertMention {st : GraphState} (h : DedupInv st)
    (l p v m : List Char) : DedupInv (st.insertMention l p v m) := by
  refine DedupInv_of_eq ?_ ?_ h <;>
    (unfold GraphState.insertMention; split <;> rfl)

theorem DedupInv.insertPartOf {st : GraphState} (h : DedupInv st)
    (c m : List Char) : DedupInv (st.insertPartOf c m) := by
  refine DedupInv_of_eq ?_ ?_ h <;>
    (unfold GraphState.insertPartOf; split <;> rfl)

theorem DedupInv.insertMsg {st : GraphState} (h : DedupInv st)
    (m : MsgNode) : DedupInv (st.insertMsg m) :=
  DedupInv_of_eq rfl rfl h

theorem DedupInv.insertConv {st : GraphState} (h : DedupInv st)
    (c : ConvNode) : DedupInv (st.insertConv c) :=
  DedupInv_of_eq rfl rfl h

theorem DedupInv.insertEnt_task {st : GraphState} (h : DedupInv st)
    (p v : List Char) (extras : List (List Char × List Char)) :
    DedupInv (st.insertEnt "Task".data p v extras) := by
  obtain ⟨h1, h2, h3⟩ := h
  refine ⟨?_, ?_, ?_⟩
  · intro n hn
    simp only [GraphState.insertEnt, List.mem_append, List.mem_singleton]
      at hn ⊢
    rcases hn with hn | hn
    · exact Nat.lt_succ_of_lt (h1 n hn)
    · rw [hn]; exact Nat.lt_succ_self _
  · intro n hn hl
    simp only [GraphState.insertEnt, List.mem_append, List.mem_singleton]
      at hn
    rcases hn with hn | hn
    · exact h2 n hn hl
    · have hT : n.label = "Task".data := by rw [hn]
      rw [hT] at hl
      rcases hl with hl | hl <;> exact absurd hl (by decide)
  · intro n1 hn1 n2 hn2 hl he hv
    simp only [GraphState.insertEnt, List.mem_append, List.mem_singleton]
      at hn1 hn2
    rcases hn1 with hn1 | hn1 <;> rcases hn2 with hn2 | hn2
    · exact h3 n1 hn1 n2 hn2 hl he hv
    · have hT : n1.label = "Task".data := by rw [← he, hn2]
      rcases hl with hl | hl <;> rw [hl] at hT <;>
        exact absurd hT (by decide)
    · have hT : n1.label = "Task".data := by rw [hn1]
      rw [hT] at hl
      rcases hl with hl | hl <;> exact absurd hl (by decide)
    · rw [hn1, hn2]

theorem DedupInv.condInsertEnt_name {st : GraphState} (h : DedupInv st)
    {lbl : List Char} (hl : lbl = "Person".data ∨ lbl = "Topic".data)
    (v : List Char) (extras : List (List Char × List Char)) :
    DedupInv (st.condInsertEnt lbl "name".data v extras) := by
  obtain ⟨h1, h2, h3⟩ := h
  unfold GraphState.condInsertEnt
  split
  case isFalse => exact ⟨h1, h2, h3⟩
  case isTrue hm =>
    rw [List.isEmpty_iff] at hm
    have hnomatch : ∀ n ∈ st.ents,
        ¬(n.label = lbl ∧ n.keyProp = "name".data ∧ n.keyValue = v) := by
      intro n hn hc
      have hmem : n ∈ st.matching lbl "name".data v := by
        simp [GraphState.matching, List.mem_filter, hn, hc]
      rw [hm] at hmem
      exact List.not_mem_nil _ hmem
    refine ⟨?_, ?_, ?_⟩
    · intro n hn
      simp only [GraphState.insertEnt, List.mem_append, List.mem_singleton]
        at hn ⊢
      rcases hn with hn | hn
      · exact Nat.lt_succ_of_lt (h1 n hn)
      · rw [hn]; exact Nat.lt_succ_self _
    · intro n hn hlab
      simp only [GraphState.insertEnt, List.mem_append, List.mem_singleton]
        at hn
      rcases hn with hn | hn
      · exact h2 n hn hlab
      · rw [hn]
    · intro n1 hn1 n2 hn2 hlab he hv
      simp only [GraphState.insertEnt, List.mem_append, List.mem_singleton]
        at hn1 hn2
      rcases hn1 with hn1 | hn1 <;> rcases hn2 with hn2 | hn2
      · exact h3 n1 hn1 n2 hn2 hlab he hv
      · exfalso
        apply hnomatch n1 hn1
        refine ⟨?_, h2 n1 hn1 hlab, ?_⟩
        · rw [← he, hn2]
        · rw [← hv, hn2]
      · exfalso
        apply hnomatch n2 hn2
        have hlb : n2.label = lbl := by rw [he, hn1]
        refine ⟨hlb, ?_, by rw [hv, hn1]⟩
        apply h2 n2 hn2
        rw [hlb]
        exact hl
      · rw [hn1, hn2]

theorem execStmt_inv (P : GraphState → Prop) (o : Nat → Bool)
    (es : ExecState) (f : GraphState → GraphState)
    (hf : ∀ st, P st → P (f st)) (h : P es.st) :
    P (execStmt o es f).1.st := by
  unfold execStmt
  split <;> [exact hf _ h; exact h]

theorem link_entity_inv (o : Nat → Bool) (es : ExecState)
    (m : List Char) (cfg : EntityConfig) (h : DedupInv es.st) :
    DedupInv (link_entity o es m cfg).1.st := by
  cases cfg with
  | person name =>
    unfold link_entity
    simp only [EntityConfig.should_deduplicate, eq_self_iff_true, if_true,
      ite_true]
    exact execStmt_inv DedupInv o _ _
      (fun st hst => hst.insertMention _ _ _ _)
      (execStmt_inv DedupInv o es _
        (fun st hst => hst.condInsertEnt_name (Or.inl rfl) _ _) h)
  | topic name =>
    unfold link_entity
    simp only [EntityConfig.should_deduplicate, eq_self_iff_true, if_true,
      ite_true]
    exact execStmt_inv DedupInv o _ _
      (fun st hst => hst.insertMention _ _ _ _)
      (execStmt_inv DedupInv o es _
        (fun st hst => hst.condInsertEnt_name (Or.inr rfl) _ _) h)
  | task d cts =>
    unfold link_entity
    simp only [EntityConfig.should_deduplicate, Bool.false_eq_true,
      if_false, ite_false]
    split
    · exact execStmt_inv DedupInv o _ _
        (fun st hst => hst.insertMention _ _ _ _)
        (execStmt_inv DedupInv o es _
          (fun st hst => hst.insertEnt_task _ _ _) h)
    · exact execStmt_inv DedupInv o es _
        (fun st hst => hst.insertEnt_task _ _ _) h

theorem linkList_inv (o : Nat → Bool) (m : List Char) :
    ∀ (cs : List EntityConfig) (es : ExecState), DedupInv es.st →
      DedupInv (linkList o m cs es).1.st := by
  intro cs
  induction cs with
  | nil => intro es h; exact h
  | cons c cs ih =>
    intro es h
    unfold linkList
    split
    · exact ih _ (link_entity_inv o es m c h)
    · exact link_entity_inv o es m c h

theorem link_entities_inv (o : Nat → Bool) (es : ExecState)
    (m : List Char) (ents : ExtractedEntities) (tts : List Char)
    (h : DedupInv es.st) : DedupInv (link_entities o es m ents tts).1.st := by
  unfold link_entities
  split
  · split
    · exact linkList_inv o m _ _
        (linkList_inv o m _ _ (linkList_inv o m _ _ h))
    · exact linkList_inv o m _ _ (linkList_inv o m _ _ h)
  · exact linkList_inv o m _ _ h

theorem add_message_inv (o : Nat → Bool) (es : ExecState)
    (cid role content mid ts tts : List Char) (ents : ExtractedEntities)
    (h : DedupInv es.st) :
    DedupInv (add_message o es cid role content mid ts tts ents).1.st := by
  unfold add_message
  split
  · split
    · exact link_entities_inv o _ _ _ _
        (execStmt_inv DedupInv o _ _ (fun st hst => hst.insertPartOf _ _)
          (execStmt_inv DedupInv o es _ (fun st hst => hst.insertMsg _) h))
    · exact execStmt_inv DedupInv o _ _ (fun st hst => hst.insertPartOf _ _)
        (execStmt_inv DedupInv o es _ (fun st hst => hst.insertMsg _) h)
  · exact execStmt_inv DedupInv o es _ (fun st hst => hst.insertMsg _) h

theorem start_conversation_inv (o : Nat → Bool) (es : ExecState)
    (cid ts : List Char) (title : Option (List Char))
    (h : DedupInv es.st) :
    DedupInv (start_conversation o es cid ts title).1.st := by
  unfold start_conversation
  split <;>
    exact execStmt_inv DedupInv o es _ (fun st hst => hst.insertConv _) h

theorem runOps_inv (o : Nat → Bool) :
    ∀ (ops : List IngestOp) (es : ExecState), DedupInv es.st →
      DedupInv (runOps o es ops).st := by
  intro ops
  induction ops with
  | nil => intro es h; exact h
  | cons op ops ih =>
    intro es h
    cases op with
    | startConv cid ts title =>
      exact ih _ (start_conversation_inv o es cid ts title h)
    | addMsg cid role content mid ts tts ents =>
      exact ih _ (add_message_inv o es cid role content mid ts tts ents h)

theorem ents_insertMention (st : GraphState) (l p v m : List Char) :
    (st.insertMention l p v m).ents = st.ents := by
  unfold GraphState.insertMention
  split <;> rfl

/-- Ingesting Person Alice via two separate messages of one
conversation. -/
def aliceOps : List IngestOp :=
  [.startConv "c1".data "t0".data none,
   .addMsg "c1".data "user".data "hi".data "m1".data "t1".data "tt".data
     ⟨["Alice".data], [], [], []⟩,
   .addMsg "c1".data "user".data "yo".data "m2".data "t2".data "tt".data
     ⟨["Alice".data], [], [], []⟩]

/-- C4: over every sequence of ingestion operations the graph keeps at
most one Person and at most one Topic node per natural-key name (the
`DedupInv` invariant is preserved); a successfully inserted task always
appends a brand-new Task node whose identity differs from every
existing node (never merged); and ingesting Person Alice via two
separate message-linking calls yields exactly one Person node with two
distinct `MENTIONED_IN` edges. -/
theorem entity_dedup_and_task_freshness (o : Nat → Bool) (es : ExecState)
    (ops : List IngestOp) (d cts m : List Char) :
    (DedupInv es.st → DedupInv (runOps o es ops).st) ∧
    (o es.k = true →
      (link_entity o es m (EntityConfig.task d cts)).1.st.ents =
        es.st.ents ++ [⟨es.st.nextId, "Task".data, "description".data, d,
          [("status".data, "pending".data), ("created_at".data, cts)]⟩]) ∧
    (DedupInv es.st → ∀ n ∈ es.st.ents, n.nid ≠ es.st.nextId) ∧
    ((runOps (fun _ => true) initES aliceOps).st.ents =
        [⟨0, "Person".data, "name".data, "Alice".data, []⟩] ∧
      (runOps (fun _ => true) initES aliceOps).st.mentionedIn =
        [(0, "m1".data), (0, "m2".data)]) := by
  refine ⟨runOps_inv o ops es, ?_, ?_, by decide, by decide⟩
  · intro h
    unfold link_entity
    cases h2 : o (es.k + 1) <;>
      simp [EntityConfig.should_deduplicate, EntityConfig.label,
        EntityConfig.id_property, EntityConfig.key_raw,
        EntityConfig.additional_properties, execStmt, h, h2,
        ents_insertMention, GraphState.insertEnt]
  · intro h n hn
    exact Nat.ne_of_lt (h.1 n hn)

/-- Witness for `entity_dedup_and_task_freshness` at the empty session
and the Alice scenario. -/
theorem entity_dedup_and_task_freshness_witness :
    DedupInv (runOps (fun _ => true) initES aliceOps).st ∧
    (link_entity (fun _ => true) initES "m1".data
        (EntityConfig.task "d".data "ts".data)).1.st.ents =
      initES.st.ents ++ [⟨initES.st.nextId, "Task".data,
        "description".data, "d".data,
        [("status".data, "pending".data), ("created_at".data, "ts".data)]⟩] ∧
    ∀ n ∈ initES.st.ents, n.nid ≠ initES.st.nextId := by
  have hinv : DedupInv initES.st := by
    refine ⟨?_, ?_, ?_⟩ <;> intro n hn <;> simp [initES] at hn
  exact ⟨(entity_dedup_and_task_freshness (fun _ => true) initES aliceOps
      "d".data "ts".data "m1".data).1 hinv,
    (entity_dedup_and_task_freshness (fun _ => true) initES aliceOps
      "d".data "ts".data "m1".data).2.1 rfl,
    (entity_dedup_and_task_freshness (fun _ => true) initES aliceOps
      "d".data "ts".data "m1".data).2.2.1 hinv⟩

/-!
## Read queries

`session.query` returns rows of named columns whose values may be of
any type; the source parses them with `filter_map`, dropping rows whose
columns are missing or not strings (operations.rs lines 244-260 and
296-307). Rows are modelled as association lists of column name to
value, with `QVal.vother` standing for any non-string value.
-/

/-- A returned column value: a string, or anything else. -/
inductive QVal where
  | vstr (s : List Char)
  | vother
deriving DecidableEq

/-- A result row of named columns. -/
def Row : Type := List (List Char × QVal)

/-- `row.get_value(name)` of the SDK: the value of the named column. -/
def getValue (row : Row) (name : List Char) : Option QVal :=
  (row.find? fun p => decide (p.1 = name)).map Prod.snd

/-- Lexicographic comparison of character sequences, the order the
backend's `ORDER BY` uses on the RFC3339 timestamp strings. -/
def lexLe : List Char → List Char → Bool
  | [], _ => true
  | _ :: _, [] => false
  | a :: as, b :: bs =>
    if a < b then true else if b < a then false else lexLe as bs

theorem lexLe_total : ∀ a b, lexLe a b = true ∨ lexLe b a = true := by
  intro a
  induction a with
  | nil => intro b; left; rfl
  | cons x xs ih =>
    intro b
    cases b with
    | nil => right; rfl
    | cons y ys =>
      by_cases h1 : x < y
      · left; simp [lexLe, h1]
      · by_cases h2 : y < x
        · right; simp [lexLe, h2]
        · rcases ih ys with h | h
          · left; simp [lexLe, h1, h2, h]
          · right; simp [lexLe, h1, h2, h]

theorem lexLe_trans :
    ∀ a b c, lexLe a b = true → lexLe b c = true → lexLe a c = true := by
  intro a
  induction a with
  | nil => intro b c _ _; rfl
  | cons x xs ih =>
    intro b c hab hbc
    cases b with
    | nil => simp [lexLe] at hab
    | cons y ys =>
      cases c with
      | nil => simp [lexLe] at hbc
      | cons z zs =>
        simp only [lexLe] at hab hbc ⊢
        by_cases h1 : x < y
        · by_cases h2 : y < z
          · simp [lt_trans h1 h2]
          · by_cases h3 : z < y
            · simp [h2, h3] at hbc
            · have hyz : y = z := le_antisymm (not_lt.mp h3) (not_lt.mp h2)
              rw [← hyz]
              simp [h1]
        · by_cases h2 : y < x
          · simp [h1, h2] at hab
          · have hxy : x = y := le_antisymm (not_lt.mp h2) (not_lt.mp h1)
            subst hxy
            simp [h1] at hab
            by_cases h3 : x < z
            · simp [h3]
            · by_cases h4 : z < x
              · simp [h3, h4] at hbc
              · simp [h3, h4] at hbc ⊢
                exact ih ys zs hab hbc

/-- The ordering used by `ORDER BY m.timestamp DESC`: earlier result
rows have lexicographically larger timestamps. -/
def tsGe (m1 m2 : MsgNode) : Prop := lexLe m2.timestamp m1.timestamp = true

instance : DecidableRel tsGe := fun m1 m2 =>
  inferInstanceAs (Decidable (lexLe m2.timestamp m1.timestamp = true))

instance : IsTotal MsgNode tsGe :=
  ⟨fun m1 m2 => lexLe_total m2.timestamp m1.timestamp⟩

instance : IsTrans MsgNode tsGe :=
  ⟨fun _ _ _ h1 h2 => lexLe_trans _ _ _ h2 h1⟩

/-- Modelled from the spec: the rows produced by the history query
(operations.rs lines 234-240) — the messages `PART_OF` the conversation,
ordered by timestamp descending, limited, and projected onto the
returned columns. -/
def msgsInConv (st : GraphState) (convId : List Char) : List MsgNode :=
  if st.convs.any fun c => decide (c.cid = convId) then
    st.msgs.filter fun m => decide ((m.mid, convId) ∈ st.partOf)
  else []

/-- The row a message projects to (`RETURN m.role, m.content,
m.timestamp`). -/
def msgRow (m : MsgNode) : Row :=
  [("m.role".data, .vstr m.role), ("m.content".data, .vstr m.content),
   ("m.timestamp".data, .vstr m.timestamp)]

/-- Modelled from the spec: the full backend answer to the history
query. -/
def history_rows (st : GraphState) (convId : List Char) (limit : Nat) :
    List Row :=
  (((msgsInConv st convId).insertionSort tsGe).take limit).map msgRow

/-- The per-row match of `get_conversation_messages`
(operations.rs lines 249-258): a triple when the three columns are
present and strings, `none` otherwise. -/
def rowParse (row : Row) : Option (List Char × List Char × List Char) :=
  match getValue row "m.role".data, getValue row "m.content".data,
      getValue row "m.timestamp".data with
  | some (.vstr role), some (.vstr content), some (.vstr ts) =>
      some (role, content, ts)
  | _, _, _ => none

/-- The row-parsing `filter_map` of `get_conversation_messages`
(operations.rs lines 245-260): rows whose three columns are present and
strings become triples, other rows are dropped individually. -/
def parse_messages (rows : List Row) :
    List (List Char × List Char × List Char) :=
  rows.filterMap rowParse

/-- `GraphDB::get_conversation_messages` (operations.rs lines 228-263):
run the history query and parse the rows. -/
def get_conversation_messages (st : GraphState)
    (conversation_id : List Char) (limit : Nat) :
    List (List Char × List Char × List Char) :=
  parse_messages (history_rows st conversation_id limit)

theorem parse_messages_msgRow (l : List MsgNode) :
    parse_messages (l.map msgRow) =
      l.map fun m => (m.role, m.content, m.timestamp) := by
  induction l with
  | nil => rfl
  | cons m l ih =>
    simp only [List.map_cons, parse_messages, List.filterMap_cons]
    rw [parse_messages] at ih
    rw [ih]
    rfl

/-- Messages A, B, C ingested in order with increasing timestamps. -/
def abcOps : List IngestOp :=
  [.startConv "c1".data "t0".data none,
   .addMsg "c1".data "user".data "A".data "m1".data "t1".data "tt".data
     ⟨[], [], [], []⟩,
   .addMsg "c1".data "user".data "B".data "m2".data "t2".data "tt".data
     ⟨[], [], [], []⟩,
   .addMsg "c1".data "user".data "C".data "m3".data "t3".data "tt".data
     ⟨[], [], [], []⟩]

/-- C7: `get_conversation_messages` returns at most `limit` triples,
ordered by timestamp descending (each timestamp is lexicographically at
least the next); rows whose columns are missing or not strings are
dropped individually (never failing the whole parse, whose output is
never longer than its input); and for messages A, B, C inserted with
increasing timestamps, limit 2 returns [C, B]. -/
theorem get_conversation_messages_spec (st : GraphState)
    (cid : List Char) (limit : Nat) :
    (get_conversation_messages st cid limit).length ≤ limit ∧
    (get_conversation_messages st cid limit).Pairwise
      (fun x y => lexLe y.2.2 x.2.2 = true) ∧
    (∀ rows : List Row, (parse_messages rows).length ≤ rows.length) ∧
    (∀ (row : Row) (rows : List Row), rowParse row = none →
      parse_messages (row :: rows) = parse_messages rows) ∧
    get_conversation_messages (runOps (fun _ => true) initES abcOps).st
        "c1".data 2 =
      [("user".data, "C".data, "t3".data),
       ("user".data, "B".data, "t2".data)] := by
  refine ⟨?_, ?_, ?_, ?_, by decide⟩
  · rw [get_conversation_messages, history_rows, parse_messages_msgRow]
    simp only [List.length_map, List.length_take]
    exact min_le_left _ _
  · rw [get_conversation_messages, history_rows, parse_messages_msgRow]
    rw [List.pairwise_map]
    exact List.Pairwise.sublist (List.take_sublist _ _)
      (List.sorted_insertionSort tsGe _)
  · intro rows
    exact List.length_filterMap_le _ _
  · intro row rows h
    simp [parse_messages, List.filterMap_cons, h]

/-- Witness for `get_conversation_messages_spec`: the empty row has no
columns and is dropped. -/
theorem get_conversation_messages_spec_witness :
    parse_messages (([] : Row) :: []) = parse_messages [] :=
  (get_conversation_messages_spec initES.st "c1".data 2).2.2.2.1 [] [] rfl

/-- Concatenation of the lists produced for each element, in order. -/
def concatMap {α β : Type} (f : α → List β) : List α → List β
  | [] => []
  | a :: as => f a ++ concatMap f as

theorem mem_concatMap {α β : Type} (f : α → List β) (x : β) :
    ∀ l : List α, x ∈ concatMap f l ↔ ∃ a ∈ l, x ∈ f a := by
  intro l
  induction l with
  | nil => simp [concatMap]
  | cons a as ih => simp [concatMap, ih]

/-- The `CASE WHEN e:Person THEN e.name WHEN e:Topic THEN e.name WHEN
e:Task THEN e.description END` projection of `find_related_entities`
(operations.rs lines 287-291); a CASE with no matching arm yields a
non-string null. -/
def caseName (e : GNode) : QVal :=
  if e.label = "Person".data then .vstr e.keyValue
  else if e.label = "Topic".data then .vstr e.keyValue
  else if e.label = "Task".data then .vstr e.keyValue
  else .vother

/-- Modelled from the spec: the rows of the two-hop traversal
`(t:Topic {name})-[:MENTIONED_IN]->(m:Message)<-[:MENTIONED_IN]-(e)
WHERE e:Person OR e:Task` (operations.rs lines 284-291): for each
matching Topic node, each message it is mentioned in, and each Person
or Task entity mentioned in that same message, the CASE projection of
the entity. -/
def related_vals (st : GraphState) (topic_name : List Char) : List QVal :=
  concatMap
    (fun t =>
      concatMap
        (fun m =>
          ((st.ents.filter fun e =>
            decide ((e.nid, m.mid) ∈ st.mentionedIn ∧
              (e.label = "Person".data ∨ e.label = "Task".data))).map
            caseName))
        (st.msgs.filter fun m => decide ((t.nid, m.mid) ∈ st.mentionedIn)))
    (st.matching "Topic".data "name".data topic_name)

/-- The per-row match of `find_related_entities` (operations.rs lines
301-305): keep string values, drop the rest. -/
def valStr : QVal → Option (List Char)
  | .vstr s => some s
  | .vother => none

/-- `GraphDB::find_related_entities` (operations.rs lines 278-310):
the DISTINCT rows of the traversal, parsed by `filter_map`. -/
def find_related_entities (st : GraphState) (topic_name : List Char) :
    List (List Char) :=
  (related_vals st topic_name).dedup.filterMap valStr

theorem valStr_eq_some {v : QVal} {x : List Char} :
    valStr v = some x ↔ v = .vstr x := by
  cases v <;> simp [valStr]

theorem caseName_eq (e : GNode)
    (h : e.label = "Person".data ∨ e.label = "Task".data) :
    caseName e = .vstr e.keyValue := by
  rcases h with h | h
  · rw [caseName, if_pos h]
  · rw [caseName, if_neg (by rw [h]; decide), if_neg (by rw [h]; decide),
      if_pos h]

theorem mem_related_vals (st : GraphState) (topic : List Char) (v : QVal) :
    v ∈ related_vals st topic ↔
      ∃ t ∈ st.ents, ∃ m ∈ st.msgs, ∃ e ∈ st.ents,
        t.label = "Topic".data ∧ t.keyProp = "name".data ∧
        t.keyValue = topic ∧ (t.nid, m.mid) ∈ st.mentionedIn ∧
        (e.nid, m.mid) ∈ st.mentionedIn ∧
        (e.label = "Person".data ∨ e.label = "Task".data) ∧
        caseName e = v := by
  simp only [related_vals, mem_concatMap, GraphState.matching,
    List.mem_filter, List.mem_map, decide_eq_true_eq]
  constructor
  · rintro ⟨t, ⟨ht, htl, htp, htv⟩, m, ⟨hm, htm⟩, e, ⟨he, hem, hel⟩, hc⟩
    exact ⟨t, ht, m, hm, e, he, htl, htp, htv, htm, hem, hel, hc⟩
  · rintro ⟨t, ht, m, hm, e, he, htl, htp, htv, htm, hem, hel, hc⟩
    exact ⟨t, ⟨ht, htl, htp, htv⟩, m, ⟨hm, htm⟩, e, ⟨he, hem, hel⟩, hc⟩

/-- Topic rust mentioned in message m1 alongside Person Alice and Task
ship v1; an unrelated Person Bob and Topic go in message m2. -/
def rustOps : List IngestOp :=
  [.startConv "c1".data "t0".data none,
   .addMsg "c1".data "user".data "msg1".data "m1".data "t1".data "tt".data
     ⟨["Alice".data], ["rust".data], ["ship v1".data], []⟩,
   .addMsg "c1".data "user".data "msg2".data "m2".data "t2".data "tt".data
     ⟨["Bob".data], ["go".data], [], []⟩]

/-- C8: the members of `find_related_entities` are exactly the display
names (natural-key values) of Person and Task nodes that share a
`MENTIONED_IN` edge into some message the Topic node is also mentioned
in; the result has no duplicates; when no such entity exists the result
is the empty sequence; and in the rust scenario the result is the set
of Alice and the task ship v1, excluding the entities of the other
message. -/
theorem find_related_entities_spec (st : GraphState) (topic : List Char) :
    (∀ x, x ∈ find_related_entities st topic ↔
      ∃ t ∈ st.ents, ∃ m ∈ st.msgs, ∃ e ∈ st.ents,
        t.label = "Topic".data ∧ t.keyProp = "name".data ∧
        t.keyValue = topic ∧ (t.nid, m.mid) ∈ st.mentionedIn ∧
        (e.nid, m.mid) ∈ st.mentionedIn ∧
        (e.label = "Person".data ∨ e.label = "Task".data) ∧
        e.keyValue = x) ∧
    (find_related_entities st topic).Nodup ∧
    ((∀ x, ¬∃ t ∈ st.ents, ∃ m ∈ st.msgs, ∃ e ∈ st.ents,
        t.label = "Topic".data ∧ t.keyProp = "name".data ∧
        t.keyValue = topic ∧ (t.nid, m.mid) ∈ st.mentionedIn ∧
        (e.nid, m.mid) ∈ st.mentionedIn ∧
        (e.label = "Person".data ∨ e.label = "Task".data) ∧
        e.keyValue = x) →
      find_related_entities st topic = []) ∧
    find_related_entities (runOps (fun _ => true) initES rustOps).st
        "rust".data = ["Alice".data, "ship v1".data] := by
  have hmem : ∀ x, x ∈ find_related_entities st topic ↔
      ∃ t ∈ st.ents, ∃ m ∈ st.msgs, ∃ e ∈ st.ents,
        t.label = "Topic".data ∧ t.keyProp = "name".data ∧
        t.keyValue = topic ∧ (t.nid, m.mid) ∈ st.mentionedIn ∧
        (e.nid, m.mid) ∈ st.mentionedIn ∧
        (e.label = "Person".data ∨ e.label = "Task".data) ∧
        e.keyValue = x := by
    intro x
    rw [find_related_entities]
    simp only [List.mem_filterMap, List.mem_dedup, valStr_eq_some,
      exists_eq_right]
    rw [mem_related_vals]
    constructor
    · rintro ⟨t, ht, m, hm, e, he, h1, h2, h3, h4, h5, h6, hc⟩
      rw [caseName_eq e h6] at hc
      simp only [QVal.vstr.injEq] at hc
      exact ⟨t, ht, m, hm, e, he, h1, h2, h3, h4, h5, h6, hc⟩
    · rintro ⟨t, ht, m, hm, e, he, h1, h2, h3, h4, h5, h6, hv⟩
      exact ⟨t, ht, m, hm, e, he, h1, h2, h3, h4, h5, h6,
        by rw [caseName_eq e h6, hv]⟩
  refine ⟨hmem, ?_, ?_, by decide⟩
  · refine List.Nodup.filterMap ?_ (List.nodup_dedup _)
    intro a a' b hb hb'
    rw [Option.mem_def, valStr_eq_some] at hb hb'
    rw [hb, hb']
  · intro h
    rw [List.eq_nil_iff_forall_not_mem]
    intro x hx
    exact h x ((hmem x).mp hx)

/-- Witness for `find_related_entities_spec`: on the empty graph no
entity matches vacuously, and the result is the empty sequence. -/
theorem find_related_entities_spec_witness :
    find_related_entities initES.st "rust".data = [] :=
  (find_related_entities_spec initES.st "rust".data).2.2.1
    (by simp [initES])

/-!
## Context assembly (`AgenticMemory::build_context`, memory.rs 141-186)

The retrieval results are a parameter `related`: `related topic = none`
models a failed `find_related_entities` call for that topic (skipped by
the `if let Ok(related)` in the source), `some l` a successful call
returning `l`.
-/

/-- Rust's `Vec::join(sep)`. -/
def joinSep (sep : List Char) : List (List Char) → List Char
  | [] => []
  | [x] => x
  | x :: y :: rest => x ++ sep ++ joinSep sep (y :: rest)

/-- One iteration of the per-topic loop (memory.rs 160-170): push a
related line when the lookup succeeded and is non-empty. -/
def relStep (related : List Char → Option (List (List Char)))
    (acc : List (List Char)) (topic : List Char) : List (List Char) :=
  match related topic with
  | some rel =>
      if rel.isEmpty then acc
      else acc ++ ["Related to \x27".data ++ topic ++ "\x27: ".data ++
        joinSep ", ".data rel]
  | none => acc

/-- The per-topic loop of `build_context`. -/
def topicsFold (related : List Char → Option (List (List Char)))
    (ts : List (List Char)) (acc : List (List Char)) : List (List Char) :=
  ts.foldl (relStep related) acc

/-- The people push of `build_context` (memory.rs 145-150). -/
def peopleStep (e : ExtractedEntities) (acc : List (List Char)) :
    List (List Char) :=
  if e.people.isEmpty then acc
  else acc ++ ["People mentioned: ".data ++ joinSep ", ".data e.people]

/-- The topics push and per-topic loop of `build_context`
(memory.rs 152-171). -/
def topicsStep (related : List Char → Option (List (List Char)))
    (e : ExtractedEntities) (acc : List (List Char)) : List (List Char) :=
  if e.topics.isEmpty then acc
  else topicsFold related e.topics
    (acc ++ ["Topics discussed: ".data ++ joinSep ", ".data e.topics])

/-- The tasks push of `build_context` (memory.rs 173-179). -/
def tasksStep (e : ExtractedEntities) (acc : List (List Char)) :
    List (List Char) :=
  if e.tasks.isEmpty then acc
  else acc ++ ["Tasks mentioned: ".data ++ joinSep ", ".data e.tasks]

/-- `AgenticMemory::build_context` (memory.rs 141-186): push the
sections in order, then join with newlines, or return the sentinel when
no section was pushed. -/
def build_context (related : List Char → Option (List (List Char)))
    (e : ExtractedEntities) : List Char :=
  if (tasksStep e (topicsStep related e (peopleStep e []))).isEmpty then
    "No specific context from previous conversations.".data
  else joinSep "\n".data (tasksStep e (topicsStep related e (peopleStep e [])))

/-- The related line a topic contributes, when its lookup succeeded
non-empty (spec-side description of C9). -/
def relOne (related : List Char → Option (List (List Char)))
    (topic : List Char) : List (List Char) :=
  match related topic with
  | some rel =>
      if rel.isEmpty then []
      else ["Related to \x27".data ++ topic ++ "\x27: ".data ++
        joinSep ", ".data rel]
  | none => []

/-- Spec-side description of the assembled sections, following the
claim's wording: a people line only if people is non-empty, then a
topics line followed by the related lines of each topic in extraction
order (each only when non-empty), only if topics is non-empty, then a
tasks line only if tasks is non-empty. -/
def contextParts (related : List Char → Option (List (List Char)))
    (e : ExtractedEntities) : List (List Char) :=
  (if e.people.isEmpty then []
   else ["People mentioned: ".data ++ joinSep ", ".data e.people]) ++
  (if e.topics.isEmpty then []
   else ("Topics discussed: ".data ++ joinSep ", ".data e.topics) ::
     concatMap (relOne related) e.topics) ++
  (if e.tasks.isEmpty then []
   else ["Tasks mentioned: ".data ++ joinSep ", ".data e.tasks])

theorem relStep_eq (related : List Char → Option (List (List Char)))
    (acc : List (List Char)) (topic : List Char) :
    relStep related acc topic = acc ++ relOne related topic := by
  unfold relStep relOne
  cases related topic with
  | none => simp
  | some rel =>
    by_cases h : rel.isEmpty <;> simp [h]

theorem topicsFold_eq (related : List Char → Option (List (List Char))) :
    ∀ (ts : List (List Char)) (acc : List (List Char)),
      topicsFold related ts acc = acc ++ concatMap (relOne related) ts := by
  intro ts
  induction ts with
  | nil => intro acc; simp [topicsFold, concatMap]
  | cons t ts ih =>
    intro acc
    have hfold : topicsFold related (t :: ts) acc =
        topicsFold related ts (relStep related acc t) := rfl
    rw [hfold, ih, relStep_eq, concatMap, List.append_assoc]

/-- C9 (counterexample): with no extracted entities and no retrieval
hits, no section applies and `build_context` returns its actual
sentinel, which is not the string `no prior context` stated by the
claim. -/
theorem build_context_sentinel_cex :
    build_context (fun _ => none) ⟨[], [], [], []⟩ =
      "No specific context from previous conversations.".data ∧
    build_context (fun _ => none) ⟨[], [], [], []⟩ ≠
      "no prior context".data := by
  exact ⟨rfl, by decide⟩

/-- C9 (amended): context assembly is deterministic with fixed section
order — the assembled text is the newline-join of: a people line (only
if people is non-empty), then a topics line (only if topics is
non-empty) followed by one "related to" line per topic in extraction
order (each only when its related-entity result is non-empty), then a
tasks line (only if tasks is non-empty); when no section applies it
returns the fixed sentinel
`No specific context from previous conversations.`. In the Bob/graphs
example with no related hits, the text is exactly the people line and
the topics line. -/
theorem build_context_ordering
    (related : List Char → Option (List (List Char)))
    (e : ExtractedEntities) :
    (build_context related e =
      if (contextParts related e).isEmpty then
        "No specific context from previous conversations.".data
      else joinSep "\n".data (contextParts related e)) ∧
    build_context (fun _ => some [])
        ⟨["Bob".data], ["graphs".data], [], []⟩ =
      "People mentioned: Bob\nTopics discussed: graphs".data := by
  constructor
  · have key : tasksStep e (topicsStep related e (peopleStep e [])) =
        contextParts related e := by
      unfold tasksStep topicsStep peopleStep contextParts
      by_cases hp : e.people.isEmpty <;> by_cases ht : e.topics.isEmpty <;>
        by_cases hk : e.tasks.isEmpty <;>
        simp [hp, ht, hk, topicsFold_eq, List.append_assoc]
    rw [build_context, key]
  · decide

/-!
## The `AgenticMemory` orchestration layer (memory.rs)
-/

/-- The mutable `AgenticMemory` state relevant to ingestion
(memory.rs 8-13): the current conversation id, `none` until a
conversation is started. -/
structure AgenticMemory where
  current_conversation_id : Option (List Char)
deriving DecidableEq

/-- `AgenticMemory::start_conversation` (memory.rs 43-47): delegate to
the graph layer; on success remember and return the new id, on error
propagate it leaving the current id unchanged. -/
def mem_start_conversation (o : Nat → Bool) (mem : AgenticMemory)
    (es : ExecState) (conv_id ts : List Char)
    (title : Option (List Char)) :
    AgenticMemory × ExecState × Option (List Char) :=
  match start_conversation o es conv_id ts title with
  | (es1, some cid) => (⟨some cid⟩, es1, some cid)
  | (es1, none) => (mem, es1, none)

/-- `AgenticMemory::process_user_message` (memory.rs 55-79): fail with
`No active conversation` before issuing any statement when the current
id is unset; then run entity extraction (an external call whose outcome
is the parameter `extract` — `none` models a failed extraction,
propagated before any statement); then `add_message` with role `user`,
returning the message id and entities on success. -/
def process_user_message (o : Nat → Bool) (mem : AgenticMemory)
    (es : ExecState) (message : List Char)
    (extract : Option ExtractedEntities) (msg_id ts taskTs : List Char) :
    ExecState × Option (List Char × ExtractedEntities) :=
  match mem.current_conversation_id with
  | none => (es, none)
  | some cid =>
    match extract with
    | none => (es, none)
    | some ents =>
      if (add_message o es cid "user".data message msg_id ts taskTs
          ents).2 then
        ((add_message o es cid "user".data message msg_id ts taskTs
          ents).1, some (msg_id, ents))
      else
        ((add_message o es cid "user".data message msg_id ts taskTs
          ents).1, none)

/-- `AgenticMemory::store_assistant_message` (memory.rs 82-102): same
guard on the current conversation id; no entity extraction (default
empty entities); role `assistant`. -/
def store_assistant_message (o : Nat → Bool) (mem : AgenticMemory)
    (es : ExecState) (message : List Char) (msg_id ts taskTs : List Char) :
    ExecState × Option (List Char) :=
  match mem.current_conversation_id with
  | none => (es, none)
  | some cid =>
    if (add_message o es cid "assistant".data message msg_id ts taskTs
        ⟨[], [], [], []⟩).2 then
      ((add_message o es cid "assistant".data message msg_id ts taskTs
        ⟨[], [], [], []⟩).1, some msg_id)
    else
      ((add_message o es cid "assistant".data message msg_id ts taskTs
        ⟨[], [], [], []⟩).1, none)

/-- A session-level operation against `AgenticMemory`. -/
inductive MemOp where
  | start (convId ts : List Char) (title : Option (List Char))
  | user (message : List Char) (extract : Option ExtractedEntities)
      (msgId ts taskTs : List Char)
  | assistant (message msgId ts taskTs : List Char)
deriving DecidableEq

/-- The session: memory state, backend state, and the conversation ids
returned to the caller by `start_conversation` so far. -/
structure MemSession where
  mem : AgenticMemory
  es : ExecState
  returned : List (List Char)
deriving DecidableEq

/-- One session step. -/
def memStep (o : Nat → Bool) (s : MemSession) : MemOp → MemSession
  | .start cid ts title =>
    match mem_start_conversation o s.mem s.es cid ts title with
    | (mem1, es1, some cid1) => ⟨mem1, es1, s.returned ++ [cid1]⟩
    | (mem1, es1, none) => ⟨mem1, es1, s.returned⟩
  | .user msg ext mid ts tts =>
      ⟨s.mem, (process_user_message o s.mem s.es msg ext mid ts tts).1,
        s.returned⟩
  | .assistant msg mid ts tts =>
      ⟨s.mem, (store_assistant_message o s.mem s.es msg mid ts tts).1,
        s.returned⟩

/-- Run a sequence of session operations. -/
def runMem (o : Nat → Bool) (s : MemSession) : List MemOp → MemSession
  | [] => s
  | op :: ops => runMem o (memStep o s op) ops

/-- The session invariant: the current conversation id, when set, was
returned by `start_conversation`, and every `PART_OF` edge points at a
conversation id returned by `start_conversation`. -/
def MemInv (s : MemSession) : Prop :=
  (∀ c, s.mem.current_conversation_id = some c → c ∈ s.returned) ∧
  (∀ p ∈ s.es.st.partOf, p.2 ∈ s.returned)

theorem execStmt_st (o : Nat → Bool) (es : ExecState)
    (f : GraphState → GraphState) :
    (execStmt o es f).1.st = if o es.k then f es.st else es.st := by
  by_cases h : o es.k = true <;> simp [execStmt, h]

theorem partOf_condInsertEnt (st : GraphState) (l p v : List Char)
    (e : List (List Char × List Char)) :
    (st.condInsertEnt l p v e).partOf = st.partOf := by
  unfold GraphState.condInsertEnt GraphState.insertEnt
  split <;> rfl

theorem partOf_insertMention (st : GraphState) (l p v m : List Char) :
    (st.insertMention l p v m).partOf = st.partOf := by
  unfold GraphState.insertMention
  split <;> rfl

theorem partOf_link_entity (o : Nat → Bool) (es : ExecState)
    (m : List Char) (cfg : EntityConfig) :
    (link_entity o es m cfg).1.st.partOf = es.st.partOf := by
  cases cfg with
  | person n =>
    unfold link_entity
    simp only [EntityConfig.should_deduplicate, eq_self_iff_true, if_true,
      ite_true]
    exact execStmt_inv (fun st => st.partOf = es.st.partOf) o _ _
      (fun st h => by simp only [partOf_insertMention]; exact h)
      (execStmt_inv (fun st => st.partOf = es.st.partOf) o es _
        (fun st h => by simp only [partOf_condInsertEnt]; exact h) rfl)
  | topic n =>
    unfold link_entity
    simp only [EntityConfig.should_deduplicate, eq_self_iff_true, if_true,
      ite_true]
    exact execStmt_inv (fun st => st.partOf = es.st.partOf) o _ _
      (fun st h => by simp only [partOf_insertMention]; exact h)
      (execStmt_inv (fun st => st.partOf = es.st.partOf) o es _
        (fun st h => by simp only [partOf_condInsertEnt]; exact h) rfl)
  | task d cts =>
    unfold link_entity
    simp only [EntityConfig.should_deduplicate, Bool.false_eq_true,
      if_false, ite_false]
    split
    · exact execStmt_inv (fun st => st.partOf = es.st.partOf) o _ _
        (fun st h => by simp only [partOf_insertMention]; exact h)
        (execStmt_inv (fun st => st.partOf = es.st.partOf) o es _
          (fun st h => h) rfl)
    · exact execStmt_inv (fun st => st.partOf = es.st.partOf) o es _
        (fun st h => h) rfl

theorem partOf_linkList (o : Nat → Bool) (m : List Char) :
    ∀ (cs : List EntityConfig) (es : ExecState),
      (linkList o m cs es).1.st.partOf = es.st.partOf := by
  intro cs
  induction cs with
  | nil => intro es; rfl
  | cons c cs ih =>
    intro es
    unfold linkList
    split
    · rw [ih, partOf_link_entity]
    · exact partOf_link_entity o es m c

theorem partOf_link_entities (o : Nat → Bool) (es : ExecState)
    (m : List Char) (ents : ExtractedEntities) (tts : List Char) :
    (link_entities o es m ents tts).1.st.partOf = es.st.partOf := by
  unfold link_entities
  split
  · split
    · rw [partOf_linkList, partOf_linkList, partOf_linkList]
    · show (linkList o m (ents.topics.map EntityConfig.topic)
        (linkList o m (ents.people.map EntityConfig.person) es).1).1.st.partOf
          = es.st.partOf
      rw [partOf_linkList, partOf_linkList]
  · show (linkList o m
      (ents.people.map EntityConfig.person) es).1.st.partOf = es.st.partOf
    rw [partOf_linkList]

theorem add_message_partOf (o : Nat → Bool) (es : ExecState)
    (cid role content mid ts tts : List Char) (ents : ExtractedEntities) :
    ∀ p ∈ (add_message o es cid role content mid ts tts ents).1.st.partOf,
      p ∈ es.st.partOf ∨ p = (mid, cid) := by
  have h1 : (execStmt o es fun st =>
      st.insertMsg ⟨mid, role, content, ts⟩).1.st.partOf = es.st.partOf := by
    rw [execStmt_st]; split <;> rfl
  have h2 : ∀ q ∈ (execStmt o
      (execStmt o es fun st => st.insertMsg ⟨mid, role, content, ts⟩).1
      fun st => st.insertPartOf cid mid).1.st.partOf,
      q ∈ es.st.partOf ∨ q = (mid, cid) := by
    intro q hq
    rw [execStmt_st] at hq
    split at hq
    · unfold GraphState.insertPartOf at hq
      split at hq
      · simp only [List.mem_append, List.mem_singleton] at hq
        rcases hq with hq | hq
        · exact Or.inl (h1 ▸ hq)
        · exact Or.inr hq
      · exact Or.inl (h1 ▸ hq)
    · exact Or.inl (h1 ▸ hq)
  intro p hp
  unfold add_message at hp
  split at hp
  · split at hp
    · rw [partOf_link_entities] at hp
      exact h2 p hp
    · exact h2 p hp
  · exact Or.inl (h1 ▸ hp)

/-- C10: when no conversation has been started (the current
conversation id is unset) both `process_user_message` and
`store_assistant_message` return an error with the backend session
untouched — same graph, no `execute` call issued; and over every
session run starting from a state satisfying the invariant, every
`PART_OF` edge's conversation id is one previously returned by
`start_conversation` (and the current id, when set, is such an id). -/
theorem no_active_conversation_guard (o : Nat → Bool) :
    (∀ (mem : AgenticMemory) (es : ExecState) (msg : List Char)
        (ext : Option ExtractedEntities) (mid ts tts : List Char),
      mem.current_conversation_id = none →
      process_user_message o mem es msg ext mid ts tts = (es, none)) ∧
    (∀ (mem : AgenticMemory) (es : ExecState) (msg mid ts tts : List Char),
      mem.current_conversation_id = none →
      store_assistant_message o mem es msg mid ts tts = (es, none)) ∧
    ∀ (ops : List MemOp) (s : MemSession), MemInv s →
      MemInv (runMem o s ops) := by
  refine ⟨?_, ?_, ?_⟩
  · intro mem es msg ext mid ts tts h
    unfold process_user_message
    rw [h]
  · intro mem es msg mid ts tts h
    unfold store_assistant_message
    rw [h]
  · intro ops
    induction ops with
    | nil => intro s h; exact h
    | cons op ops ih =>
      intro s h
      refine ih _ ?_
      cases op with
      | start cid ts title =>
        by_cases h1 : o s.es.k = true <;>
          simp only [memStep, mem_start_conversation, start_conversation,
            execStmt, h1, if_true, ite_true, Bool.false_eq_true, if_false,
            ite_false]
        · refine ⟨?_, ?_⟩
          · intro c hc
            simp only [Option.some.injEq] at hc
            rw [← hc]
            simp
          · intro p hp
            exact List.mem_append_left _ (h.2 p hp)
        · exact ⟨h.1, h.2⟩
      | user msg ext mid ts tts =>
        refine ⟨h.1, ?_⟩
        intro p hp
        simp only [memStep] at hp
        cases hcur : s.mem.current_conversation_id with
        | none =>
          have hes : (process_user_message o s.mem s.es msg ext mid ts
              tts).1 = s.es := by
            unfold process_user_message
            simp only [hcur]
          rw [hes] at hp
          exact h.2 p hp
        | some cid =>
          cases ext with
          | none =>
            have hes : (process_user_message o s.mem s.es msg none mid ts
                tts).1 = s.es := by
              unfold process_user_message
              simp only [hcur]
            rw [hes] at hp
            exact h.2 p hp
          | some ents =>
            have hes : (process_user_message o s.mem s.es msg (some ents)
                mid ts tts).1 =
                (add_message o s.es cid "user".data msg mid ts tts
                  ents).1 := by
              unfold process_user_message
              simp only [hcur]
              split <;> rfl
            rw [hes] at hp
            rcases add_message_partOf o s.es cid "user".data msg mid ts tts
              ents p hp with h3 | h3
            · exact h.2 p h3
            · rw [h3]
              exact h.1 cid hcur
      | assistant msg mid ts tts =>
        refine ⟨h.1, ?_⟩
        intro p hp
        simp only [memStep] at hp
        cases hcur : s.mem.current_conversation_id with
        | none =>
          have hes : (store_assistant_message o s.mem s.es msg mid ts
              tts).1 = s.es := by
            unfold store_assistant_message
            simp only [hcur]
          rw [hes] at hp
          exact h.2 p hp
        | some cid =>
          have hes : (store_assistant_message o s.mem s.es msg mid ts
              tts).1 =
              (add_message o s.es cid "assistant".data msg mid ts tts
                ⟨[], [], [], []⟩).1 := by
            unfold store_assistant_message
            simp only [hcur]
            split <;> rfl
          rw [hes] at hp
          rcases add_message_partOf o s.es cid "assistant".data msg mid ts
            tts ⟨[], [], [], []⟩ p hp with h3 | h3
          · exact h.2 p h3
          · rw [h3]
            exact h.1 cid hcur

/-- Witness for `no_active_conversation_guard`: with no active
conversation both calls fail leaving the empty session untouched, and
the empty session satisfies the invariant. -/
theorem no_active_conversation_guard_witness :
    process_user_message (fun _ => true) ⟨none⟩ initES "hi".data
        (some ⟨[], [], [], []⟩) "m1".data "t1".data "tt".data =
      (initES, none) ∧
    store_assistant_message (fun _ => true) ⟨none⟩ initES "yo".data
        "m1".data "t1".data "tt".data = (initES, none) ∧
    MemInv (runMem (fun _ => true) ⟨⟨none⟩, initES, []⟩ []) := by
  have hinv : MemInv ⟨⟨none⟩, initES, []⟩ := by
    refine ⟨?_, ?_⟩
    · intro c hc
      simp at hc
    · intro p hp
      simp [initES] at hp
  exact ⟨(no_active_conversation_guard (fun _ => true)).1 _ _ _ _ _ _ _ rfl,
    (no_active_conversation_guard (fun _ => true)).2.1 _ _ _ _ _ _ rfl,
    (no_active_conversation_guard (fun _ => true)).2.2 [] _ hinv⟩

